import Mathlib

/-!
Shallow embedding of the round-up investment calculator from `src/services.py`
(`round_amount`, `calculate_investment`, `investment_bank`) and proofs of the
specified properties.

Amounts are modelled as rationals, Python exceptions as an `Except` error
monad, and transaction dicts as association lists from string keys to
Python values.  Date parsing follows the `strptime` directives used by the
code (`%Y` is exactly four digits, `%m` and `%d` are one or two digits with
the documented ranges, and the resulting date must exist in the calendar).
-/

namespace Services

attribute [local semireducible] Rat.add Rat.mul Rat.inv Rat.sub

/-- Python exception kinds that can arise in the embedded code. -/
inductive PyErr where
  | valueError (msg : String)
  | keyError (key : String)
  | typeError (msg : String)
  | zeroDivisionError
deriving DecidableEq

/-- A Python value as stored in a transaction mapping. -/
inductive PyVal where
  | pstr (s : String)
  | pnum (q : ℚ)
  | pnone
deriving DecidableEq

/-- A transaction record: a Python dict, embedded as an association list. -/
abbrev Tx := List (String × PyVal)

instance exceptDecEq {ε α : Type} [DecidableEq ε] [DecidableEq α] :
    DecidableEq (Except ε α) := fun
  | .error e, .error e' => decidable_of_iff (e = e') (by simp)
  | .error _, .ok _ => .isFalse (by simp)
  | .ok _, .error _ => .isFalse (by simp)
  | .ok a, .ok b => decidable_of_iff (a = b) (by simp)

/-- Dict lookup, `t[key]`; `none` models a `KeyError`. -/
def lookupKey : Tx → String → Option PyVal
  | [], _ => none
  | (k, v) :: rest, key => if k = key then some v else lookupKey rest key

/-- The key the code reads the operation date from. -/
def dateKey : String := "Дата операции"

/-- The key the code reads the operation amount from. -/
def amountKey : String := "Сумма операции"

/-- Numeric value of a decimal digit character. -/
def digitVal (c : Char) : Nat := c.toNat - 48

/-- Whether a character is a decimal digit. -/
def isDigit (c : Char) : Bool := 48 ≤ c.toNat && c.toNat ≤ 57

/-- Value of a string of decimal digits. -/
def natVal (cs : List Char) : Nat := cs.foldl (fun n c => 10 * n + digitVal c) 0

/-- Split a character list on a separator character. -/
def splitOnChar (sep : Char) : List Char → List (List Char)
  | [] => [[]]
  | c :: rest =>
    if c = sep then [] :: splitOnChar sep rest
    else
      match splitOnChar sep rest with
      | [] => [[c]]
      | g :: gs => (c :: g) :: gs

/-- A year field accepted by `strptime`'s `%Y` followed by the `datetime`
constructor: exactly four digits, value at least 1. -/
def yearOk (cs : List Char) : Bool :=
  cs.length == 4 && cs.all isDigit && natVal cs != 0

/-- A month field accepted by `strptime`'s `%m`: one or two digits with
value between 1 and 12. -/
def monthOk (cs : List Char) : Bool :=
  (cs.length == 1 || cs.length == 2) && cs.all isDigit &&
    natVal cs != 0 && decide (natVal cs ≤ 12)

/-- Gregorian leap-year test, as used by `datetime`. -/
def isLeap (y : Nat) : Bool := (y % 4 == 0 && y % 100 != 0) || y % 400 == 0

/-- Number of days in a month of a given year. -/
def daysInMonth (y m : Nat) : Nat :=
  if m == 2 then (if isLeap y then 29 else 28)
  else if m == 4 || m == 6 || m == 9 || m == 11 then 30
  else 31

/-- A day field accepted by `strptime`'s `%d` followed by the `datetime`
constructor: one or two digits, value between 1 and the month's length. -/
def dayOk (y m : Nat) (cs : List Char) : Bool :=
  (cs.length == 1 || cs.length == 2) && cs.all isDigit &&
    natVal cs != 0 && decide (natVal cs ≤ daysInMonth y m)

/-- Model of `datetime.strptime(s, "%Y-%m")`, returning the (year, month) pair;
`none` models the `ValueError` raised on a non-matching string. -/
def parseYM (s : String) : Option (Nat × Nat) :=
  match splitOnChar '-' s.data with
  | [ys, ms] =>
    if yearOk ys && monthOk ms then some (natVal ys, natVal ms) else none
  | _ => none

/-- Model of `datetime.strptime(s, "%Y-%m-%d")`, returning (year, month, day);
`none` models the `ValueError` raised on a non-matching string. -/
def parseYMD (s : String) : Option (Nat × Nat × Nat) :=
  match splitOnChar '-' s.data with
  | [ys, ms, ds] =>
    if yearOk ys && monthOk ms && dayOk (natVal ys) (natVal ms) ds then
      some (natVal ys, natVal ms, natVal ds)
    else none
  | _ => none

/-- Value of an unsigned decimal literal (`"123"`, `"123.45"`, `".5"`,
`"12."`), the string forms `float` accepts that the data can contain. -/
def decChars (cs : List Char) : Option ℚ :=
  match splitOnChar '.' cs with
  | [intPart] =>
    if intPart != [] && intPart.all isDigit then some (natVal intPart) else none
  | [intPart, fracPart] =>
    if (intPart != [] || fracPart != []) && intPart.all isDigit &&
        fracPart.all isDigit then
      some ((natVal intPart : ℚ) + (natVal fracPart : ℚ) / ((10 : ℚ) ^ fracPart.length))
    else none
  | _ => none

/-- Value of `float(s)` for a string `s`, with an optional leading sign;
`none` models the `ValueError` on a non-numeric string. -/
def floatOfChars : List Char → Option ℚ
  | '-' :: rest => (decChars rest).map (fun q => -q)
  | '+' :: rest => decChars rest
  | cs => decChars cs

/-- Model of `float(v)` on a Python value: numbers pass through, strings are parsed,
anything else raises `TypeError`. -/
def pyFloat : PyVal → Except PyErr ℚ
  | .pnum q => .ok q
  | .pstr s =>
    match floatOfChars s.data with
    | some q => .ok q
    | none => .error (.valueError "could not convert string to float")
  | .pnone => .error (.typeError "float() argument must be a string or a real number")

/-- Round to the nearest integer with ties to even, the semantics of
Python's built-in `round`.  (`Rat.floor` is the executable floor; it is
proved equal to `⌊⌋` below.) -/
def roundHalfEven (q : ℚ) : ℤ :=
  if q - Rat.floor q < 1/2 then Rat.floor q
  else if (1 : ℚ)/2 < q - Rat.floor q then Rat.floor q + 1
  else if Rat.floor q % 2 = 0 then Rat.floor q else Rat.floor q + 1

/-- Python `round(q, 2)`: round to two decimal places, ties to even. -/
def pyRound2 (q : ℚ) : ℚ := (roundHalfEven (q * 100) : ℚ) / 100

/-- The value `math.ceil(amount / limit) * limit` computed by
`round_amount` when the division succeeds.  (`Rat.ceil` is the executable
ceiling; it is proved equal to `⌈⌉` below.) -/
def roundAmountVal (amount : ℚ) (limit : ℤ) : ℚ :=
  ((Rat.ceil (amount / (limit : ℚ)) * limit : ℤ) : ℚ)

/-- The function `round_amount(amount, limit)` from `src/services.py`:
`math.ceil(amount / limit) * limit`, where a zero `limit` raises
`ZeroDivisionError` at the division. -/
def round_amount (amount : ℚ) (limit : ℤ) : Except PyErr ℚ :=
  if limit = 0 then .error .zeroDivisionError
  else .ok (roundAmountVal amount limit)

/-- The function `calculate_investment(amount, limit)` from `src/services.py`:
`round(round_amount(amount, limit) - amount, 2)`. -/
def calculate_investment (amount : ℚ) (limit : ℤ) : Except PyErr ℚ :=
  match round_amount amount limit with
  | .error e => .error e
  | .ok rounded => .ok (pyRound2 (rounded - amount))

/-- The loop body of `investment_bank` for one transaction: read and parse
the date, compare with the target month, and when the month matches read
the amount and add the positive-amount contribution to the total. -/
def processTx (target : Nat × Nat) (limit : ℤ) (total : ℚ) (t : Tx) : Except PyErr ℚ :=
  match lookupKey t dateKey with
  | none => .error (.keyError dateKey)
  | some dv =>
    match dv with
    | .pstr ds =>
      match parseYMD ds with
      | none => .error (.valueError "time data does not match format %Y-%m-%d")
      | some (ty, tm, _) =>
        if ty == target.1 && tm == target.2 then
          match lookupKey t amountKey with
          | none => .error (.keyError amountKey)
          | some av =>
            match pyFloat av with
            | .error e => .error e
            | .ok amount =>
              if 0 < amount then
                match calculate_investment amount limit with
                | .error e => .error e
                | .ok inv => .ok (total + inv)
              else .ok total
        else .ok total
    | _ => .error (.typeError "strptime() argument 1 must be str")

/-- The `for` loop of `investment_bank`: fold `processTx` over the
transactions, stopping at the first exception. -/
def processAll (target : Nat × Nat) (limit : ℤ) (total : ℚ) : List Tx → Except PyErr ℚ
  | [] => .ok total
  | t :: rest =>
    match processTx target limit total t with
    | .error e => .error e
    | .ok total' => processAll target limit total' rest

/-- The function `investment_bank(month, transactions, limit)` from `src/services.py`:
parse the month, reject a non-positive limit, accumulate the contributions
of the in-month positive-amount transactions, and round the total to two
decimal places.  The `except` clause of the source re-raises every caught
exception, so errors propagate unchanged. -/
def investment_bank (month : String) (transactions : List Tx) (limit : ℤ) :
    Except PyErr ℚ :=
  match parseYM month with
  | none => .error (.valueError "time data does not match format %Y-%m")
  | some target =>
    if limit ≤ 0 then
      .error (.valueError "Предел округления должен быть положительным числом")
    else
      match processAll target limit 0 transactions with
      | .error e => .error e
      | .ok total => .ok (pyRound2 total)

/-- The date of a transaction as read by the loop body: present only when
the date key is present, holds a string, and that string parses. -/
def txDate (t : Tx) : Option (Nat × Nat × Nat) :=
  match lookupKey t dateKey with
  | some (.pstr s) => parseYMD s
  | _ => none

/-- The numeric amount of a transaction as read by the loop body: present
only when the amount key is present and `float` accepts its value. -/
def txAmount (t : Tx) : Option ℚ :=
  match lookupKey t amountKey with
  | some v => (pyFloat v).toOption
  | none => none

/-- The amount of a transaction, defaulting to 0 when absent. -/
def txAmountD (t : Tx) : ℚ := (txAmount t).getD 0

/-- Whether a transaction's date parses and falls in the target month. -/
def inTargetMonth (y m : Nat) (t : Tx) : Bool :=
  match txDate t with
  | some (ty, tm, _) => ty == y && tm == m
  | none => false

/-- Whether a transaction contributes to the total: dated in the target
month with a positive amount. -/
def contributes (y m : Nat) (t : Tx) : Bool :=
  inTargetMonth y m t &&
    (match txAmount t with
     | some a => decide (0 < a)
     | none => false)

/-- Whether the loop body can process a transaction without an exception:
its date parses, and when it is dated in the target month its amount is
present and numeric. -/
def okTx (y m : Nat) (t : Tx) : Bool :=
  (txDate t).isSome && (!inTargetMonth y m t || (txAmount t).isSome)

/-- A fully well-formed transaction: parsable date and numeric amount. -/
def wellFormedTx (t : Tx) : Bool := (txDate t).isSome && (txAmount t).isSome

/-- The gap between an amount and its round-up target, rounded to two
decimal places: the value `calculate_investment` returns for a non-zero
limit. -/
def investGap (amount : ℚ) (limit : ℤ) : ℚ :=
  pyRound2 (roundAmountVal amount limit - amount)

/-- The spec's error taxonomy folds every input-validation failure of the
core (bad month string, non-positive limit, missing key, unparsable date,
non-numeric amount) into `ValidationError`; only `ZeroDivisionError` falls
outside it. -/
def isValidationError : PyErr → Bool
  | .valueError _ => true
  | .keyError _ => true
  | .typeError _ => true
  | .zeroDivisionError => false

/-- The executable `Rat.floor` agrees with the mathematical floor. -/
theorem ratFloor_eq_floor (q : ℚ) : Rat.floor q = ⌊q⌋ :=
  (Rat.floor_def' q).trans Rat.floor_def.symm

/-- The executable `Rat.ceil` agrees with the mathematical ceiling. -/
theorem ratCeil_eq_ceil (q : ℚ) : Rat.ceil q = ⌈q⌉ := by
  unfold Rat.ceil
  split
  · next h =>
    have hq : ((q.num : ℚ)) = q := by
      conv_rhs => rw [← Rat.num_div_den q]
      rw [h]
      simp
    conv_rhs => rw [← hq]
    rw [Int.ceil_intCast]
  · next h =>
    have hfl : q.num / (q.den : ℤ) = ⌊q⌋ := by
      rw [← Rat.floor_def' q, ratFloor_eq_floor]
    rw [hfl]
    have hne : q ≠ ((⌊q⌋ : ℤ) : ℚ) := by
      intro heq
      apply h
      rw [heq]
      exact Rat.den_intCast _
    symm
    rw [Int.ceil_eq_iff]
    constructor
    · push_cast
      have h1 : (⌊q⌋ : ℚ) ≤ q := Int.floor_le q
      have h2 : (⌊q⌋ : ℚ) ≠ q := fun hc => hne hc.symm
      have := lt_of_le_of_ne h1 h2
      linarith
    · push_cast
      have := Int.lt_floor_add_one q
      linarith

/-- Rewriting `roundAmountVal` with the mathematical ceiling. -/
theorem roundAmountVal_eq_ceil_mul (a : ℚ) (l : ℤ) :
    roundAmountVal a l = ((⌈a / (l : ℚ)⌉ : ℤ) : ℚ) * (l : ℚ) := by
  unfold roundAmountVal
  rw [ratCeil_eq_ceil]
  push_cast
  ring

/-- The round-up value is at least the amount. -/
theorem le_roundAmountVal (a : ℚ) (l : ℤ) (hl : 0 < l) : a ≤ roundAmountVal a l := by
  rw [roundAmountVal_eq_ceil_mul]
  have hlq : (0 : ℚ) < (l : ℚ) := by exact_mod_cast hl
  have h := Int.le_ceil (a / (l : ℚ))
  have h2 := mul_le_mul_of_nonneg_right h (le_of_lt hlq)
  calc a = a / (l : ℚ) * (l : ℚ) := by field_simp
  _ ≤ ((⌈a / (l : ℚ)⌉ : ℤ) : ℚ) * (l : ℚ) := h2

/-- The round-up value overshoots by less than one limit. -/
theorem roundAmountVal_lt (a : ℚ) (l : ℤ) (hl : 0 < l) : roundAmountVal a l < a + l := by
  rw [roundAmountVal_eq_ceil_mul]
  have hlq : (0 : ℚ) < (l : ℚ) := by exact_mod_cast hl
  have h := Int.ceil_lt_add_one (a / (l : ℚ))
  have h2 := mul_lt_mul_of_pos_right h hlq
  calc ((⌈a / (l : ℚ)⌉ : ℤ) : ℚ) * (l : ℚ) < (a / (l : ℚ) + 1) * (l : ℚ) := h2
  _ = a + l := by field_simp

/-- Exact multiples of the limit are left unchanged by the round-up. -/
theorem roundAmountVal_exact (a : ℚ) (l : ℤ) (hl : l ≠ 0) (k : ℤ)
    (hk : a = (k : ℚ) * (l : ℚ)) : roundAmountVal a l = a := by
  rw [roundAmountVal_eq_ceil_mul, hk]
  have hd : ((k : ℚ) * (l : ℚ)) / (l : ℚ) = (k : ℚ) := by
    field_simp
  rw [hd, Int.ceil_intCast]

/-- Half-even rounding is the identity on integers. -/
theorem roundHalfEven_intCast (n : ℤ) : roundHalfEven ((n : ℤ) : ℚ) = n := by
  unfold roundHalfEven
  rw [ratFloor_eq_floor, Int.floor_intCast]
  rw [if_pos]
  rw [sub_self]
  norm_num

/-- Half-even rounding preserves non-negativity. -/
theorem roundHalfEven_nonneg (q : ℚ) (h : 0 ≤ q) : 0 ≤ roundHalfEven q := by
  unfold roundHalfEven
  rw [ratFloor_eq_floor]
  have h0 : 0 ≤ ⌊q⌋ := Int.floor_nonneg.mpr h
  split_ifs <;> omega

/-- Rounding with `round(q, 2)` preserves non-negativity. -/
theorem pyRound2_nonneg (q : ℚ) (h : 0 ≤ q) : 0 ≤ pyRound2 q := by
  unfold pyRound2
  have h1 : 0 ≤ q * 100 := by positivity
  have h2 := roundHalfEven_nonneg _ h1
  have h3 : (0 : ℚ) ≤ ((roundHalfEven (q * 100) : ℤ) : ℚ) := by exact_mod_cast h2
  positivity

/-- Rounding with `round(q, 2)` is the identity on multiples of one cent. -/
theorem pyRound2_int_div (n : ℤ) : pyRound2 ((n : ℚ) / 100) = (n : ℚ) / 100 := by
  unfold pyRound2
  have h : (n : ℚ) / 100 * 100 = ((n : ℤ) : ℚ) := by field_simp
  rw [h, roundHalfEven_intCast]

/-- Rounding zero gives zero: `round(0, 2) = 0`. -/
theorem pyRound2_zero : pyRound2 0 = 0 := by
  have := pyRound2_int_div 0
  simpa using this

/-- For a non-zero limit, `calculate_investment` succeeds and returns the
rounded round-up gap. -/
theorem calculate_investment_eq (a : ℚ) (l : ℤ) (hl : l ≠ 0) :
    calculate_investment a l = .ok (investGap a l) := by
  unfold calculate_investment round_amount investGap
  rw [if_neg hl]

/-- For a positive limit and positive amount, the contribution is
non-negative. -/
theorem investGap_nonneg (a : ℚ) (l : ℤ) (hl : 0 < l) : 0 ≤ investGap a l := by
  unfold investGap
  apply pyRound2_nonneg
  have := le_roundAmountVal a l hl
  linarith

/-- Sanity: the month parser reproduces the strptime behaviour exercised
by the repository's tests (valid month, out-of-range month, missing month
part, two-digit year). -/
theorem sanity_parseYM :
    parseYM "2024-01" = some (2024, 1) ∧ parseYM "2024-13" = none ∧
    parseYM "2024" = none ∧ parseYM "24-01" = none ∧
    parseYMD "2024-01-15" = some (2024, 1, 15) ∧
    parseYMD "2024-02-16" = some (2024, 2, 16) := by
  refine ⟨by decide, by decide, by decide, by decide, by decide, by decide⟩

/-- Sanity: `round_amount` and `calculate_investment` reproduce the
values asserted by the repository's test suite. -/
theorem sanity_round_amount :
    round_amount 1712 50 = .ok 1750 ∧ round_amount (199999/100) 100 = .ok 2000 ∧
    round_amount (91/2) 10 = .ok 50 ∧ round_amount 100 50 = .ok 100 ∧
    calculate_investment 1712 50 = .ok 38 ∧
    calculate_investment (199999/100) 100 = .ok (1/100) ∧
    calculate_investment (91/2) 10 = .ok (9/2) ∧
    calculate_investment 100 50 = .ok 0 := by
  refine ⟨by decide, by decide, by decide, by decide, by decide, by decide, by decide, by decide⟩

/-- C5: for every amount ≥ 0 and positive integer limit,
`round_amount(amount, limit)` returns the smallest multiple of `limit`
that is ≥ `amount`: the result is a multiple of `limit`, is ≥ `amount`,
and result - limit < amount; when `amount` is an exact multiple of
`limit` the result equals `amount`. -/
theorem claim_C5 (amount : ℚ) (limit : ℤ) (ha : 0 ≤ amount) (hl : 0 < limit) :
    ∃ r, round_amount amount limit = .ok r ∧
      (∃ k : ℤ, r = (k : ℚ) * ((limit : ℤ) : ℚ)) ∧
      amount ≤ r ∧ r - ((limit : ℤ) : ℚ) < amount ∧
      (∀ k : ℤ, amount = (k : ℚ) * ((limit : ℤ) : ℚ) → r = amount) := by
  refine ⟨roundAmountVal amount limit, ?_, ?_, ?_, ?_, ?_⟩
  · unfold round_amount
    rw [if_neg (by omega)]
  · rw [roundAmountVal_eq_ceil_mul]
    exact ⟨_, rfl⟩
  · exact le_roundAmountVal _ _ hl
  · have := roundAmountVal_lt amount limit hl
    linarith
  · intro k hk
    exact roundAmountVal_exact _ _ (by omega) k hk

/-- Witness for C5 at amount 1712 and limit 50. -/
theorem claim_C5_witness :
    (0 : ℚ) ≤ 1712 ∧ (0 : ℤ) < 50 ∧
    (∃ r, round_amount 1712 50 = .ok r ∧
      (∃ k : ℤ, r = (k : ℚ) * (((50 : ℤ) : ℤ) : ℚ)) ∧
      (1712 : ℚ) ≤ r ∧ r - (((50 : ℤ) : ℤ) : ℚ) < 1712 ∧
      (∀ k : ℤ, (1712 : ℚ) = (k : ℚ) * (((50 : ℤ) : ℤ) : ℚ) → r = 1712)) :=
  ⟨by norm_num, by norm_num, claim_C5 1712 50 (by norm_num) (by norm_num)⟩

/-- C6 as stated is false: for amount 0.001 and limit 1 the round-up gap is
0.999, which `round(_, 2)` rounds to 1.0, so the result equals the limit
and does not lie in the half-open interval [0, limit). -/
theorem claim_C6_counterexample :
    calculate_investment (1/1000 : ℚ) 1 = .ok 1 ∧ ¬ ((1 : ℚ) < ((1 : ℤ) : ℚ)) := by
  constructor
  · decide
  · norm_num

/-- C6 amended: for every amount ≥ 0 that is a whole number of cents
(an integer multiple of 0.01, the precision the data carries) and every
positive limit, `calculate_investment(amount, limit)` lies in [0, limit):
it is ≥ 0 and ≤ limit - 0.01; when `amount` is an exact multiple of
`limit` it is exactly 0.  (For amounts finer than one cent the final
two-decimal rounding can push the result up to exactly `limit`, as the
counterexample shows.) -/
theorem claim_C6_amended (amount : ℚ) (limit : ℤ) (ha : 0 ≤ amount) (hl : 0 < limit)
    (hc : ∃ n : ℤ, amount = (n : ℚ) / 100) :
    ∃ r, calculate_investment amount limit = .ok r ∧ 0 ≤ r ∧
      r ≤ ((limit : ℤ) : ℚ) - 1/100 ∧ r < ((limit : ℤ) : ℚ) ∧
      (∀ k : ℤ, amount = (k : ℚ) * ((limit : ℤ) : ℚ) → r = 0) := by
  obtain ⟨n, hn⟩ := hc
  have hl0 : limit ≠ 0 := by omega
  have hgap : roundAmountVal amount limit - amount =
      ((⌈amount / ((limit : ℤ) : ℚ)⌉ * limit * 100 - n : ℤ) : ℚ) / 100 := by
    rw [roundAmountVal_eq_ceil_mul, hn]
    push_cast
    ring
  have hid : investGap amount limit = roundAmountVal amount limit - amount := by
    unfold investGap
    rw [hgap, pyRound2_int_div, ← hgap]
  refine ⟨investGap amount limit, calculate_investment_eq _ _ hl0, ?_, ?_, ?_, ?_⟩
  · exact pyRound2_nonneg _ (by have := le_roundAmountVal amount limit hl; linarith)
  · rw [hid, hgap]
    have hlt : roundAmountVal amount limit - amount < ((limit : ℤ) : ℚ) := by
      have := roundAmountVal_lt amount limit hl
      linarith
    rw [hgap] at hlt
    have hjq : ((⌈amount / ((limit : ℤ) : ℚ)⌉ * limit * 100 - n : ℤ) : ℚ) <
        ((100 * limit : ℤ) : ℚ) := by
      push_cast at hlt ⊢
      linarith
    have hj : (⌈amount / ((limit : ℤ) : ℚ)⌉ * limit * 100 - n : ℤ) ≤ 100 * limit - 1 := by
      have h' : (⌈amount / ((limit : ℤ) : ℚ)⌉ * limit * 100 - n : ℤ) < 100 * limit := by
        exact_mod_cast hjq
      omega
    have hjq2 : ((⌈amount / ((limit : ℤ) : ℚ)⌉ * limit * 100 - n : ℤ) : ℚ) ≤
        ((100 * limit - 1 : ℤ) : ℚ) := by exact_mod_cast hj
    push_cast at hjq2 ⊢
    linarith
  · rw [hid]
    have := roundAmountVal_lt amount limit hl
    linarith
  · intro k hk
    rw [hid, roundAmountVal_exact _ _ hl0 k hk]
    ring

/-- Witness for the amended C6 at amount 1999.99 and limit 100. -/
theorem claim_C6_amended_witness :
    (0 : ℚ) ≤ 199999/100 ∧ (0 : ℤ) < 100 ∧ (199999/100 : ℚ) = ((199999 : ℤ) : ℚ) / 100 ∧
    (∃ r, calculate_investment (199999/100) 100 = .ok r ∧ 0 ≤ r ∧
      r ≤ (((100 : ℤ) : ℤ) : ℚ) - 1/100 ∧ r < (((100 : ℤ) : ℤ) : ℚ) ∧
      (∀ k : ℤ, (199999/100 : ℚ) = (k : ℚ) * (((100 : ℤ) : ℤ) : ℚ) → r = 0)) :=
  ⟨by norm_num, by norm_num, by norm_num,
    claim_C6_amended (199999/100) 100 (by norm_num) (by norm_num)
      ⟨199999, by norm_num⟩⟩

/-- Fully well-formed transactions can always be processed. -/
theorem okTx_of_wellFormed (y m : Nat) (t : Tx) (h : wellFormedTx t = true) :
    okTx y m t = true := by
  unfold wellFormedTx at h
  unfold okTx
  rw [Bool.and_eq_true] at h
  rw [Bool.and_eq_true, Bool.or_eq_true]
  exact ⟨h.1, Or.inr h.2⟩

/-- Processing a transaction the loop can handle adds exactly its
contribution (or nothing) to the running total. -/
theorem processTx_ok (y m : Nat) (limit : ℤ) (hl : 0 < limit) (total : ℚ) (t : Tx)
    (h : okTx y m t = true) :
    processTx (y, m) limit total t =
      .ok (if contributes y m t then total + investGap (txAmountD t) limit else total) := by
  unfold okTx at h
  rw [Bool.and_eq_true, Bool.or_eq_true] at h
  obtain ⟨hd, hrest⟩ := h
  rw [Option.isSome_iff_exists] at hd
  obtain ⟨⟨ty, tm, td⟩, hdate⟩ := hd
  cases hdv : lookupKey t dateKey with
  | none =>
    simp only [txDate, hdv] at hdate
    exact Option.noConfusion hdate
  | some dv =>
    cases dv with
    | pnum q =>
      simp only [txDate, hdv] at hdate
      exact Option.noConfusion hdate
    | pnone =>
      simp only [txDate, hdv] at hdate
      exact Option.noConfusion hdate
    | pstr ds =>
      have hpd : parseYMD ds = some (ty, tm, td) := by
        simpa only [txDate, hdv] using hdate
      have hint : inTargetMonth y m t = (ty == y && tm == m) := by
        simp only [inTargetMonth, txDate, hdv, hpd]
      have hcon : contributes y m t =
          ((ty == y && tm == m) &&
            (match txAmount t with
             | some a => decide (0 < a)
             | none => false)) := by
        unfold contributes
        rw [hint]
      by_cases hmatch : (ty == y && tm == m) = true
      · have hsome : (txAmount t).isSome = true := by
          rcases hrest with hn | hs
          · rw [hint, hmatch] at hn; simp at hn
          · exact hs
        rw [Option.isSome_iff_exists] at hsome
        obtain ⟨a, hamt⟩ := hsome
        cases hav : lookupKey t amountKey with
        | none =>
          simp only [txAmount, hav] at hamt
          exact Option.noConfusion hamt
        | some av =>
          have hamt' : (pyFloat av).toOption = some a := by
            simpa only [txAmount, hav] using hamt
          have hfv : pyFloat av = .ok a := by
            cases hfv' : pyFloat av with
            | error e => rw [hfv'] at hamt'; simp [Except.toOption] at hamt'
            | ok a' =>
              rw [hfv'] at hamt'
              simp only [Except.toOption, Option.some.injEq] at hamt'
              rw [hamt']
          have hAD : txAmountD t = a := by
            simp only [txAmountD, hamt, Option.getD_some]
          simp only [processTx, hdv, hpd, hav, hfv, hmatch, if_true]
          by_cases hpos : (0 < a)
          · have hdec : decide (0 < a) = true := decide_eq_true hpos
            rw [hcon, hamt]
            rw [if_pos hpos]
            rw [calculate_investment_eq a limit (by omega)]
            have hpair := hmatch
            rw [Bool.and_eq_true] at hpair
            have h1 : ty = y := beq_iff_eq.mp hpair.1
            have h2 : tm = m := beq_iff_eq.mp hpair.2
            simp [hdec, hAD, h1, h2]
          · have hdec : decide (0 < a) = false := decide_eq_false hpos
            rw [hcon, hamt]
            rw [if_neg hpos]
            simp [hdec]
      · have hfalse : (ty == y && tm == m) = false := by
          cases hb : (ty == y && tm == m) with
          | false => rfl
          | true => exact absurd hb hmatch
        simp only [processTx, hdv, hpd]
        rw [hcon]
        simp [hfalse]

/-- The loop over a list of processable transactions succeeds and adds the
sum of the contributions of the in-month positive-amount transactions. -/
theorem processAll_ok (y m : Nat) (limit : ℤ) (hl : 0 < limit) (txs : List Tx) :
    (∀ t ∈ txs, okTx y m t = true) → ∀ total : ℚ,
      processAll (y, m) limit total txs =
        .ok (total + ((txs.filter (contributes y m)).map
          (fun t => investGap (txAmountD t) limit)).sum) := by
  induction txs with
  | nil =>
    intro _ total
    simp [processAll]
  | cons t rest ih =>
    intro hok total
    have ht : okTx y m t = true := hok t (List.mem_cons_self _ _)
    have hrest : ∀ x ∈ rest, okTx y m x = true :=
      fun x hx => hok x (List.mem_cons_of_mem _ hx)
    unfold processAll
    rw [processTx_ok y m limit hl total t ht]
    by_cases hc : contributes y m t = true
    · rw [if_pos hc]
      dsimp only
      rw [ih hrest (total + investGap (txAmountD t) limit)]
      congr 1
      rw [List.filter_cons, if_pos hc]
      simp [add_assoc]
    · rw [if_neg hc]
      dsimp only
      rw [ih hrest total]
      congr 2
      rw [List.filter_cons, if_neg hc]

/-- Characterisation of a successful `investment_bank` run: for a valid
month, a positive limit and processable transactions, it returns the
two-decimal rounding of the summed contributions of exactly the in-month
positive-amount transactions. -/
theorem investment_bank_char (month : String) (y m : Nat) (txs : List Tx) (limit : ℤ)
    (hm : parseYM month = some (y, m)) (hl : 0 < limit)
    (hok : ∀ t ∈ txs, okTx y m t = true) :
    investment_bank month txs limit =
      .ok (pyRound2 (((txs.filter (contributes y m)).map
        (fun t => investGap (txAmountD t) limit)).sum)) := by
  simp only [investment_bank, hm]
  rw [if_neg (by omega : ¬ limit ≤ 0)]
  rw [processAll_ok y m limit hl txs hok 0]
  simp

/-- C1: for every month string parsing as a valid year-month, positive
limit and list of well-formed transaction records, `investment_bank`
returns the two-decimal rounding of the sum, over exactly the records
dated in the target month with positive amount, of the per-transaction
investment contribution; in particular for the empty list it returns 0.0
and does not fail. -/
theorem claim_C1 (month : String) (y m : Nat) (txs : List Tx) (limit : ℤ)
    (hm : parseYM month = some (y, m)) (hl : 0 < limit)
    (hwf : ∀ t ∈ txs, wellFormedTx t = true) :
    investment_bank month txs limit =
      .ok (pyRound2 (((txs.filter (contributes y m)).map
        (fun t => investGap (txAmountD t) limit)).sum)) ∧
    investment_bank month ([] : List Tx) limit = .ok 0 := by
  constructor
  · exact investment_bank_char month y m txs limit hm hl
      (fun t ht => okTx_of_wellFormed y m t (hwf t ht))
  · rw [investment_bank_char month y m [] limit hm hl (by intro t ht; simp at ht)]
    simp [pyRound2_zero]

/-- Witness for C1 at month 2024-01, one well-formed transaction and
limit 50. -/
theorem claim_C1_witness :
    parseYM "2024-01" = some (2024, 1) ∧ (0 : ℤ) < 50 ∧
    (∀ t ∈ [[(dateKey, PyVal.pstr "2024-01-15"), (amountKey, PyVal.pnum 1712)]],
      wellFormedTx t = true) ∧
    (investment_bank "2024-01"
        [[(dateKey, PyVal.pstr "2024-01-15"), (amountKey, PyVal.pnum 1712)]] 50 =
      .ok (pyRound2 ((([[(dateKey, PyVal.pstr "2024-01-15"),
          (amountKey, PyVal.pnum 1712)]].filter (contributes 2024 1)).map
        (fun t => investGap (txAmountD t) 50)).sum)) ∧
     investment_bank "2024-01" ([] : List Tx) 50 = .ok 0) :=
  ⟨by decide, by decide, by decide,
    claim_C1 "2024-01" 2024 1
      [[(dateKey, PyVal.pstr "2024-01-15"), (amountKey, PyVal.pnum 1712)]] 50
      (by decide) (by decide) (by decide)⟩

/-- C2: `investment_bank` fails with a validation error (a `ValueError`,
the spec's ValidationError) when the month does not parse or when the
limit is non-positive, and in both cases the failure is independent of the
transaction list, so no transaction record is read. -/
theorem claim_C2 (month : String) (txs : List Tx) (limit : ℤ)
    (h : parseYM month = none ∨ limit ≤ 0) :
    (∃ msg, investment_bank month txs limit = .error (.valueError msg)) ∧
    (∀ txs', investment_bank month txs' limit = investment_bank month txs limit) := by
  rcases h with h | h
  · constructor
    · exact ⟨"time data does not match format %Y-%m", by simp only [investment_bank, h]⟩
    · intro txs'
      simp only [investment_bank, h]
  · cases hp : parseYM month with
    | none =>
      constructor
      · exact ⟨"time data does not match format %Y-%m", by simp only [investment_bank, hp]⟩
      · intro txs'
        simp only [investment_bank, hp]
    | some target =>
      constructor
      · refine ⟨"Предел округления должен быть положительным числом", ?_⟩
        simp only [investment_bank, hp]
        rw [if_pos h]
      · intro txs'
        simp only [investment_bank, hp, if_pos h]

/-- Witness for C2 at the invalid month 2024-13 and at limit 0. -/
theorem claim_C2_witness :
    (parseYM "2024-13" = none ∨ (50 : ℤ) ≤ 0) ∧
    ((∃ msg, investment_bank "2024-13"
        [[(dateKey, PyVal.pstr "2024-01-15"), (amountKey, PyVal.pnum 1712)]] 50 =
        .error (.valueError msg)) ∧
      (∀ txs', investment_bank "2024-13" txs' 50 =
        investment_bank "2024-13"
          [[(dateKey, PyVal.pstr "2024-01-15"), (amountKey, PyVal.pnum 1712)]] 50)) ∧
    ((0 : ℤ) ≤ 0 ∧
      (∃ msg, investment_bank "2024-01"
        [[(dateKey, PyVal.pstr "2024-01-15"), (amountKey, PyVal.pnum 1712)]] 0 =
        .error (.valueError msg)) ∧
      (∀ txs', investment_bank "2024-01" txs' 0 =
        investment_bank "2024-01"
          [[(dateKey, PyVal.pstr "2024-01-15"), (amountKey, PyVal.pnum 1712)]] 0)) :=
  ⟨Or.inl (by decide),
    claim_C2 "2024-13" [[(dateKey, PyVal.pstr "2024-01-15"), (amountKey, PyVal.pnum 1712)]] 50
      (Or.inl (by decide)),
    by decide,
    (claim_C2 "2024-01" [[(dateKey, PyVal.pstr "2024-01-15"), (amountKey, PyVal.pnum 1712)]] 0
      (Or.inr (by decide))).1,
    (claim_C2 "2024-01" [[(dateKey, PyVal.pstr "2024-01-15"), (amountKey, PyVal.pnum 1712)]] 0
      (Or.inr (by decide))).2⟩

/-- C4: a transaction contributes to the returned total exactly when it is
dated in the target month and its amount is positive: dropping every
non-contributing transaction (out-of-month ones regardless of sign, and
non-positive-amount ones even in-month) leaves the result unchanged. -/
theorem claim_C4 (month : String) (y m : Nat) (txs : List Tx) (limit : ℤ)
    (hm : parseYM month = some (y, m)) (hl : 0 < limit)
    (hwf : ∀ t ∈ txs, wellFormedTx t = true) :
    investment_bank month txs limit =
      investment_bank month (txs.filter (contributes y m)) limit := by
  have hok : ∀ t ∈ txs, okTx y m t = true :=
    fun t ht => okTx_of_wellFormed y m t (hwf t ht)
  rw [investment_bank_char month y m txs limit hm hl hok,
      investment_bank_char month y m (txs.filter (contributes y m)) limit hm hl
        (fun t ht => hok t (List.mem_of_mem_filter ht))]
  have hff : (txs.filter (contributes y m)).filter (contributes y m)
      = txs.filter (contributes y m) :=
    List.filter_eq_self.mpr (fun a ha => List.of_mem_filter ha)
  rw [hff]

/-- Witness for C4: an out-of-month and a negative-amount transaction are
dropped without changing the result. -/
theorem claim_C4_witness :
    parseYM "2024-01" = some (2024, 1) ∧ (0 : ℤ) < 50 ∧
    (∀ t ∈ [[(dateKey, PyVal.pstr "2024-01-15"), (amountKey, PyVal.pnum 1712)],
            [(dateKey, PyVal.pstr "2024-02-16"), (amountKey, PyVal.pnum (91/2))],
            [(dateKey, PyVal.pstr "2024-01-20"), (amountKey, PyVal.pnum (-150))]],
      wellFormedTx t = true) ∧
    investment_bank "2024-01"
        [[(dateKey, PyVal.pstr "2024-01-15"), (amountKey, PyVal.pnum 1712)],
         [(dateKey, PyVal.pstr "2024-02-16"), (amountKey, PyVal.pnum (91/2))],
         [(dateKey, PyVal.pstr "2024-01-20"), (amountKey, PyVal.pnum (-150))]] 50 =
      investment_bank "2024-01"
        ([[(dateKey, PyVal.pstr "2024-01-15"), (amountKey, PyVal.pnum 1712)],
          [(dateKey, PyVal.pstr "2024-02-16"), (amountKey, PyVal.pnum (91/2))],
          [(dateKey, PyVal.pstr "2024-01-20"), (amountKey, PyVal.pnum (-150))]].filter
            (contributes 2024 1)) 50 :=
  ⟨by decide, by decide, by decide,
    claim_C4 "2024-01" 2024 1
      [[(dateKey, PyVal.pstr "2024-01-15"), (amountKey, PyVal.pnum 1712)],
       [(dateKey, PyVal.pstr "2024-02-16"), (amountKey, PyVal.pnum (91/2))],
       [(dateKey, PyVal.pstr "2024-01-20"), (amountKey, PyVal.pnum (-150))]] 50
      (by decide) (by decide) (by decide)⟩

/-- C10: the amount field is read only for transactions dated in the
target month, so the call succeeds as long as every date parses and every
in-month transaction has a numeric amount — a missing or non-numeric
amount on an out-of-month transaction does not fail the call. -/
theorem claim_C10 (month : String) (y m : Nat) (txs : List Tx) (limit : ℤ)
    (hm : parseYM month = some (y, m)) (hl : 0 < limit)
    (hok : ∀ t ∈ txs, okTx y m t = true) :
    ∃ r, investment_bank month txs limit = .ok r :=
  ⟨_, investment_bank_char month y m txs limit hm hl hok⟩

/-- Witness for C10: an out-of-month transaction with no amount key at all
does not make the call fail. -/
theorem claim_C10_witness :
    parseYM "2024-01" = some (2024, 1) ∧ (0 : ℤ) < 50 ∧
    (∀ t ∈ [[(dateKey, PyVal.pstr "2024-02-16")]], okTx 2024 1 t = true) ∧
    ∃ r, investment_bank "2024-01" [[(dateKey, PyVal.pstr "2024-02-16")]] 50 = .ok r :=
  ⟨by decide, by decide, by decide,
    claim_C10 "2024-01" 2024 1 [[(dateKey, PyVal.pstr "2024-02-16")]] 50
      (by decide) (by decide) (by decide)⟩

/-- Every error `float` can raise on a field value is a validation error. -/
theorem pyFloat_error_isValidation (v : PyVal) (e : PyErr) (h : pyFloat v = .error e) :
    isValidationError e = true := by
  cases v with
  | pnum q => exact Except.noConfusion h
  | pstr s =>
    simp only [pyFloat] at h
    cases hf : floatOfChars s.data with
    | some q => rw [hf] at h; exact Except.noConfusion h
    | none =>
      rw [hf] at h
      injection h with h1
      rw [← h1]
      rfl
  | pnone =>
    simp only [pyFloat] at h
    injection h with h1
    rw [← h1]
    rfl

/-- A transaction the loop cannot process makes the loop body raise a
validation error: a missing date key, a non-string or unparsable date, or
— only for an in-month transaction — a missing or non-numeric amount. -/
theorem processTx_error_of_not_okTx (y m : Nat) (limit : ℤ) (total : ℚ) (t : Tx)
    (h : okTx y m t = false) :
    ∃ e, processTx (y, m) limit total t = .error e ∧ isValidationError e = true := by
  cases hdv : lookupKey t dateKey with
  | none => exact ⟨.keyError dateKey, by simp only [processTx, hdv], rfl⟩
  | some dv =>
    cases dv with
    | pnum q =>
      exact ⟨.typeError "strptime() argument 1 must be str", by simp only [processTx, hdv], rfl⟩
    | pnone =>
      exact ⟨.typeError "strptime() argument 1 must be str", by simp only [processTx, hdv], rfl⟩
    | pstr ds =>
      cases hpd : parseYMD ds with
      | none =>
        exact ⟨.valueError "time data does not match format %Y-%m-%d",
          by simp only [processTx, hdv, hpd], rfl⟩
      | some d =>
        obtain ⟨ty, tm, td⟩ := d
        have hdate : txDate t = some (ty, tm, td) := by
          simp only [txDate, hdv, hpd]
        have hsome : (txDate t).isSome = true := by rw [hdate]; rfl
        unfold okTx at h
        rw [hsome, Bool.true_and] at h
        rw [Bool.or_eq_false_iff] at h
        obtain ⟨hin, hamt⟩ := h
        have hin' : inTargetMonth y m t = true := by
          cases hb : inTargetMonth y m t with
          | true => rfl
          | false => rw [hb] at hin; exact Bool.noConfusion hin
        have hmatch : (ty == y && tm == m) = true := by
          have : inTargetMonth y m t = (ty == y && tm == m) := by
            simp only [inTargetMonth, hdate]
          rw [← this]
          exact hin'
        have hnone : txAmount t = none := by
          cases hb : txAmount t with
          | none => rfl
          | some a => rw [hb] at hamt; exact Bool.noConfusion hamt
        cases hav : lookupKey t amountKey with
        | none =>
          refine ⟨.keyError amountKey, ?_, rfl⟩
          simp only [processTx, hdv, hpd, hmatch, if_true, hav]
        | some av =>
          cases hfv : pyFloat av with
          | ok a =>
            exfalso
            have : txAmount t = some a := by
              simp only [txAmount, hav, hfv, Except.toOption]
            rw [this] at hnone
            exact Option.noConfusion hnone
          | error e =>
            refine ⟨e, ?_, pyFloat_error_isValidation av e hfv⟩
            simp only [processTx, hdv, hpd, hmatch, if_true, hav, hfv]

/-- Any error raised by the loop body with a positive limit is a
validation error (the division-by-zero branch is unreachable). -/
theorem processTx_error_isValidation (y m : Nat) (limit : ℤ) (hl : 0 < limit)
    (total : ℚ) (t : Tx) (e : PyErr)
    (h : processTx (y, m) limit total t = .error e) : isValidationError e = true := by
  cases hok : okTx y m t with
  | true =>
    rw [processTx_ok y m limit hl total t hok] at h
    exact Except.noConfusion h
  | false =>
    obtain ⟨e', he', hv⟩ := processTx_error_of_not_okTx y m limit total t hok
    rw [he'] at h
    injection h with h1
    rw [← h1]
    exact hv

/-- Any error raised by the loop with a positive limit is a validation
error. -/
theorem processAll_error_isValidation (y m : Nat) (limit : ℤ) (hl : 0 < limit)
    (txs : List Tx) : ∀ (total : ℚ) (e : PyErr),
      processAll (y, m) limit total txs = .error e → isValidationError e = true := by
  induction txs with
  | nil =>
    intro total e h
    exact Except.noConfusion h
  | cons t rest ih =>
    intro total e h
    unfold processAll at h
    cases hpt : processTx (y, m) limit total t with
    | error e' =>
      rw [hpt] at h
      dsimp only at h
      injection h with h1
      rw [← h1]
      exact processTx_error_isValidation y m limit hl total t e' hpt
    | ok total' =>
      rw [hpt] at h
      dsimp only at h
      exact ih total' e h

/-- If some transaction in the list cannot be processed, the loop fails
with a validation error. -/
theorem processAll_bad (y m : Nat) (limit : ℤ) (hl : 0 < limit) (txs : List Tx) :
    ∀ total : ℚ, (∃ t ∈ txs, okTx y m t = false) →
      ∃ e, processAll (y, m) limit total txs = .error e ∧ isValidationError e = true := by
  induction txs with
  | nil =>
    intro total hbad
    obtain ⟨t, ht, _⟩ := hbad
    simp at ht
  | cons t rest ih =>
    intro total hbad
    obtain ⟨x, hx, hxbad⟩ := hbad
    cases hok : okTx y m t with
    | false =>
      obtain ⟨e, he, hv⟩ := processTx_error_of_not_okTx y m limit total t hok
      refine ⟨e, ?_, hv⟩
      unfold processAll
      rw [he]
    | true =>
      have hx' : x ∈ rest := by
        rcases List.mem_cons.mp hx with rfl | hmem
        · rw [hok] at hxbad; exact Bool.noConfusion hxbad
        · exact hmem
      obtain ⟨e, he, hv⟩ := ih (if contributes y m t = true
          then total + investGap (txAmountD t) limit else total) ⟨x, hx', hxbad⟩
      refine ⟨e, ?_, hv⟩
      unfold processAll
      rw [processTx_ok y m limit hl total t hok]
      dsimp only
      exact he

/-- A transaction the loop can always process never makes the call go from
ok to error, and non-negativity of the running total is preserved. -/
theorem processTx_ok_nonneg (y m : Nat) (limit : ℤ) (hl : 0 < limit)
    (total : ℚ) (t : Tx) (total' : ℚ)
    (h : processTx (y, m) limit total t = .ok total') (h0 : 0 ≤ total) : 0 ≤ total' := by
  cases hok : okTx y m t with
  | false =>
    obtain ⟨e, he, _⟩ := processTx_error_of_not_okTx y m limit total t hok
    rw [he] at h
    exact Except.noConfusion h
  | true =>
    rw [processTx_ok y m limit hl total t hok] at h
    injection h with h1
    rw [← h1]
    by_cases hc : contributes y m t = true
    · rw [if_pos hc]
      have := investGap_nonneg (txAmountD t) limit hl
      linarith
    · rw [if_neg hc]
      exact h0

/-- The loop keeps its running total non-negative. -/
theorem processAll_nonneg (y m : Nat) (limit : ℤ) (hl : 0 < limit) (txs : List Tx) :
    ∀ total : ℚ, 0 ≤ total → ∀ total' : ℚ,
      processAll (y, m) limit total txs = .ok total' → 0 ≤ total' := by
  induction txs with
  | nil =>
    intro total h0 total' h
    injection h with h1
    rw [← h1]
    exact h0
  | cons t rest ih =>
    intro total h0 total' h
    unfold processAll at h
    cases hpt : processTx (y, m) limit total t with
    | error e =>
      rw [hpt] at h
      exact Except.noConfusion h
    | ok mid =>
      rw [hpt] at h
      dsimp only at h
      exact ih mid (processTx_ok_nonneg y m limit hl total t mid hpt h0) total' h

/-- C3 as stated is false: a transaction dated outside the target month
whose amount field is entirely missing does not fail the call — the code
reads the amount only after the month filter, so the call succeeds and
returns 0. -/
theorem claim_C3_counterexample :
    txAmount [(dateKey, PyVal.pstr "2024-02-16")] = none ∧
    investment_bank "2024-01" [[(dateKey, PyVal.pstr "2024-02-16")]] 50 = .ok 0 := by
  constructor
  · decide
  · decide

/-- C3 amended: with a valid month and positive limit, the whole
aggregation fails with a validation error — and no partial total is
returned — whenever some transaction has a missing, non-string or
unparsable date, or some transaction dated in the target month has a
missing or non-numeric amount; amounts of out-of-month transactions are
never read.  (`okTx y m t = false` states exactly this about record
`t`.) -/
theorem claim_C3_amended (month : String) (y m : Nat) (txs : List Tx) (limit : ℤ)
    (hm : parseYM month = some (y, m)) (hl : 0 < limit)
    (hbad : ∃ t ∈ txs, okTx y m t = false) :
    ∃ e, investment_bank month txs limit = .error e ∧ isValidationError e = true := by
  obtain ⟨e, he, hv⟩ := processAll_bad y m limit hl txs 0 hbad
  refine ⟨e, ?_, hv⟩
  simp only [investment_bank, hm]
  rw [if_neg (by omega : ¬ limit ≤ 0)]
  rw [he]

/-- Witness for the amended C3: an in-month transaction with no amount
field fails the whole call. -/
theorem claim_C3_amended_witness :
    parseYM "2024-01" = some (2024, 1) ∧ (0 : ℤ) < 50 ∧
    (∃ t ∈ [[(dateKey, PyVal.pstr "2024-01-15")]], okTx 2024 1 t = false) ∧
    ∃ e, investment_bank "2024-01" [[(dateKey, PyVal.pstr "2024-01-15")]] 50 =
      .error e ∧ isValidationError e = true :=
  ⟨by decide, by decide, by decide,
    claim_C3_amended "2024-01" 2024 1 [[(dateKey, PyVal.pstr "2024-01-15")]] 50
      (by decide) (by decide) (by decide)⟩

/-- C7 as stated is false: the code reads the keys "Дата операции" and
"Сумма операции", so on records keyed `operation_date` and
`operation_amount` the call raises `KeyError` instead of returning
42.5. -/
theorem claim_C7_counterexample :
    investment_bank "2024-01"
        [[("operation_date", PyVal.pstr "2024-01-15"),
          ("operation_amount", PyVal.pnum 1712)],
         [("operation_date", PyVal.pstr "2024-01-16"),
          ("operation_amount", PyVal.pnum (91/2))]] 50 =
      .error (.keyError dateKey) ∧
    ¬ investment_bank "2024-01"
        [[("operation_date", PyVal.pstr "2024-01-15"),
          ("operation_amount", PyVal.pnum 1712)],
         [("operation_date", PyVal.pstr "2024-01-16"),
          ("operation_amount", PyVal.pnum (91/2))]] 50 =
      .ok (85/2) := by
  constructor
  · decide
  · decide

/-- C7 amended: with the field names the code actually reads
("Дата операции" for the date and "Сумма операции" for the amount), the
documented example holds: the January transactions of 1712.0 and 45.5
with limit 50 yield 42.5 (38.0 + 4.5). -/
theorem claim_C7_amended :
    investment_bank "2024-01"
        [[(dateKey, PyVal.pstr "2024-01-15"), (amountKey, PyVal.pnum 1712)],
         [(dateKey, PyVal.pstr "2024-01-16"), (amountKey, PyVal.pnum (91/2))]] 50 =
      .ok (85/2) := by
  decide

/-- C8: whenever `investment_bank` succeeds, the returned value is
non-negative, because it is built only from non-negative per-transaction
contributions. -/
theorem claim_C8 (month : String) (txs : List Tx) (limit : ℤ) (r : ℚ)
    (h : investment_bank month txs limit = .ok r) : 0 ≤ r := by
  cases hp : parseYM month with
  | none =>
    simp only [investment_bank, hp] at h
    exact Except.noConfusion h
  | some target =>
    obtain ⟨y, m⟩ := target
    simp only [investment_bank, hp] at h
    by_cases hlim : limit ≤ 0
    · rw [if_pos hlim] at h
      exact Except.noConfusion h
    · rw [if_neg hlim] at h
      cases hpa : processAll (y, m) limit 0 txs with
      | error e =>
        rw [hpa] at h
        exact Except.noConfusion h
      | ok total =>
        rw [hpa] at h
        dsimp only at h
        injection h with h1
        rw [← h1]
        exact pyRound2_nonneg total
          (processAll_nonneg y m limit (by omega) txs 0 le_rfl total hpa)

/-- Witness for C8 at a successful run returning 42.5. -/
theorem claim_C8_witness :
    investment_bank "2024-01"
        [[(dateKey, PyVal.pstr "2024-01-15"), (amountKey, PyVal.pnum 1712)],
         [(dateKey, PyVal.pstr "2024-01-16"), (amountKey, PyVal.pnum (91/2))]] 50 =
      .ok (85/2) ∧ (0 : ℚ) ≤ 85/2 :=
  ⟨by decide,
    claim_C8 "2024-01"
      [[(dateKey, PyVal.pstr "2024-01-15"), (amountKey, PyVal.pnum 1712)],
       [(dateKey, PyVal.pstr "2024-01-16"), (amountKey, PyVal.pnum (91/2))]] 50 (85/2)
      (by decide)⟩

/-- C9: for a positive limit the arithmetic core is total —
`round_amount` and `calculate_investment` always return a value, the
division being guarded by the positive limit — and since `investment_bank`
rejects a non-positive limit before any `calculate_investment` call, its
division-by-zero branch is unreachable: every error the aggregator can
return is a validation error. -/
theorem claim_C9 (amount : ℚ) (limit : ℤ) (hl : 0 < limit) :
    (∃ r, round_amount amount limit = .ok r) ∧
    (∃ r, calculate_investment amount limit = .ok r) ∧
    (∀ (month : String) (txs : List Tx) (limit' : ℤ) (e : PyErr),
      investment_bank month txs limit' = .error e → isValidationError e = true) := by
  refine ⟨⟨roundAmountVal amount limit, ?_⟩,
    ⟨investGap amount limit, calculate_investment_eq _ _ (by omega)⟩, ?_⟩
  · unfold round_amount
    rw [if_neg (by omega : ¬ limit = 0)]
  · intro month txs limit' e h
    cases hp : parseYM month with
    | none =>
      simp only [investment_bank, hp] at h
      injection h with h1
      rw [← h1]
      rfl
    | some target =>
      obtain ⟨y, m⟩ := target
      simp only [investment_bank, hp] at h
      by_cases hlim : limit' ≤ 0
      · rw [if_pos hlim] at h
        injection h with h1
        rw [← h1]
        rfl
      · rw [if_neg hlim] at h
        cases hpa : processAll (y, m) limit' 0 txs with
        | error e' =>
          rw [hpa] at h
          dsimp only at h
          injection h with h1
          rw [← h1]
          exact processAll_error_isValidation y m limit' (by omega) txs 0 e' hpa
        | ok total =>
          rw [hpa] at h
          dsimp only at h
          exact Except.noConfusion h

/-- Witness for C9 at amount 1712 and limit 50. -/
theorem claim_C9_witness :
    (0 : ℤ) < 50 ∧
    (∃ r, round_amount 1712 50 = .ok r) ∧
    (∃ r, calculate_investment 1712 50 = .ok r) ∧
    (∀ (month : String) (txs : List Tx) (limit' : ℤ) (e : PyErr),
      investment_bank month txs limit' = .error e → isValidationError e = true) :=
  ⟨by decide,
    (claim_C9 1712 50 (by decide)).1,
    (claim_C9 1712 50 (by decide)).2.1,
    (claim_C9 1712 50 (by decide)).2.2⟩

end Services
